import Mathlib

/-!
# Verification of the SEO baseline-comparison core (`seo_utils.js`)

Shallow embedding of the structural diff engine of the repository:

* `findFieldDifferences` — the recursive field-level differ;
* `compareJsonLdWithBaseline`, `compareMetaTagsWithBaseline` — the two
  kind-specific comparison routines;
* `compareWithBaseline` — the orchestrator (load-or-create baseline);
* `updateBaseline`, `ensureBaselineDirectory` — the baseline store.

JavaScript values are modelled by `JsonValue`; the JavaScript `undefined`
value (the result of a property access that finds nothing) is modelled by
`Option JsonValue` with `none` standing for `undefined`.  A JavaScript
`TypeError` (thrown by property access on `null`/`undefined` and by the
`in` operator on primitives) is modelled with `Except`.
-/

/-- A JSON-compatible JavaScript value.  Object fields are kept in insertion
order, as JavaScript preserves string-key insertion order; keys are unique in
any object produced by `JSON.parse` or by the extraction code. -/
inductive JsonValue where
  | null
  | bool (b : Bool)
  | num (n : Int)
  | str (s : String)
  | arr (elems : List JsonValue)
  | obj (fields : List (String × JsonValue))
deriving Repr

mutual

/-- Decidable equality of `JsonValue` (the automatic derivation does not
handle this nested inductive). -/
def JsonValue.decEq : (a b : JsonValue) → Decidable (a = b)
  | .null, .null => isTrue rfl
  | .bool a, .bool b =>
      if h : a = b then isTrue (by rw [h]) else isFalse (by intro hh; injection hh; contradiction)
  | .num a, .num b =>
      if h : a = b then isTrue (by rw [h]) else isFalse (by intro hh; injection hh; contradiction)
  | .str a, .str b =>
      if h : a = b then isTrue (by rw [h]) else isFalse (by intro hh; injection hh; contradiction)
  | .arr xs, .arr ys =>
      match JsonValue.decEqList xs ys with
      | isTrue h => isTrue (by rw [h])
      | isFalse h => isFalse (by intro hh; injection hh; contradiction)
  | .obj fs, .obj gs =>
      match JsonValue.decEqFields fs gs with
      | isTrue h => isTrue (by rw [h])
      | isFalse h => isFalse (by intro hh; injection hh; contradiction)
  | .null, .bool _ => isFalse nofun
  | .null, .num _ => isFalse nofun
  | .null, .str _ => isFalse nofun
  | .null, .arr _ => isFalse nofun
  | .null, .obj _ => isFalse nofun
  | .bool _, .null => isFalse nofun
  | .bool _, .num _ => isFalse nofun
  | .bool _, .str _ => isFalse nofun
  | .bool _, .arr _ => isFalse nofun
  | .bool _, .obj _ => isFalse nofun
  | .num _, .null => isFalse nofun
  | .num _, .bool _ => isFalse nofun
  | .num _, .str _ => isFalse nofun
  | .num _, .arr _ => isFalse nofun
  | .num _, .obj _ => isFalse nofun
  | .str _, .null => isFalse nofun
  | .str _, .bool _ => isFalse nofun
  | .str _, .num _ => isFalse nofun
  | .str _, .arr _ => isFalse nofun
  | .str _, .obj _ => isFalse nofun
  | .arr _, .null => isFalse nofun
  | .arr _, .bool _ => isFalse nofun
  | .arr _, .num _ => isFalse nofun
  | .arr _, .str _ => isFalse nofun
  | .arr _, .obj _ => isFalse nofun
  | .obj _, .null => isFalse nofun
  | .obj _, .bool _ => isFalse nofun
  | .obj _, .num _ => isFalse nofun
  | .obj _, .str _ => isFalse nofun
  | .obj _, .arr _ => isFalse nofun
termination_by a _ => sizeOf a
decreasing_by all_goals (simp_wf <;> omega)

/-- Decidable equality of lists of `JsonValue`. -/
def JsonValue.decEqList : (xs ys : List JsonValue) → Decidable (xs = ys)
  | [], [] => isTrue rfl
  | [], _ :: _ => isFalse nofun
  | _ :: _, [] => isFalse nofun
  | x :: xs, y :: ys =>
      match JsonValue.decEq x y with
      | isFalse h => isFalse (by intro hh; injection hh; contradiction)
      | isTrue h =>
        match JsonValue.decEqList xs ys with
        | isTrue h' => isTrue (by rw [h, h'])
        | isFalse h' => isFalse (by intro hh; injection hh; contradiction)
termination_by xs _ => sizeOf xs
decreasing_by all_goals (simp_wf <;> omega)

/-- Decidable equality of object field lists. -/
def JsonValue.decEqFields : (fs gs : List (String × JsonValue)) → Decidable (fs = gs)
  | [], [] => isTrue rfl
  | [], _ :: _ => isFalse nofun
  | _ :: _, [] => isFalse nofun
  | (k, v) :: fs, (k', v') :: gs =>
      if hk : k = k' then
        match JsonValue.decEq v v' with
        | isFalse h => isFalse (by intro hh; injection hh with h1 h2; injection h1; contradiction)
        | isTrue h =>
          match JsonValue.decEqFields fs gs with
          | isTrue h' => isTrue (by rw [hk, h, h'])
          | isFalse h' => isFalse (by intro hh; injection hh; contradiction)
      else isFalse (by intro hh; injection hh with h1 h2; injection h1; contradiction)
termination_by fs _ => sizeOf fs
decreasing_by all_goals (simp_wf <;> omega)

end

instance : DecidableEq JsonValue := JsonValue.decEq

namespace JsonValue

/-- JavaScript `typeof`.  Note `typeof null === "object"`. -/
def jsTypeof : JsonValue → String
  | .null => "object"
  | .bool _ => "boolean"
  | .num _ => "number"
  | .str _ => "string"
  | .arr _ => "object"
  | .obj _ => "object"

/-- `v` is a non-null object in the JavaScript sense (plain object or array):
exactly the values satisfying `typeof v === "object" && v !== null`. -/
def objecty : JsonValue → Bool
  | .arr _ => true
  | .obj _ => true
  | _ => false

/-- JavaScript truthiness of a defined value. -/
def jsTruthy : JsonValue → Bool
  | .null => false
  | .bool b => b
  | .num n => n != 0
  | .str s => s ≠ ""
  | .arr _ => true
  | .obj _ => true

end JsonValue

/-- Truthiness of a possibly-`undefined` value (`none` = `undefined`, falsy). -/
def truthyU : Option JsonValue → Bool
  | none => false
  | some v => v.jsTruthy

/-- `typeof` of a possibly-`undefined` value. -/
def typeofU : Option JsonValue → String
  | none => "undefined"
  | some v => v.jsTypeof

/-- First-occurrence lookup in an object's field list (JavaScript objects have
unique keys, so first-occurrence lookup agrees with property access). -/
def lookupField : List (String × JsonValue) → String → Option JsonValue
  | [], _ => none
  | (k', v) :: fs, k => if k' = k then some v else lookupField fs k

/-- Indexed lookup in an array by string key: `xs[k]` where `k` is the decimal
numeral of a valid index.  `i` is the index of the head of the list. -/
def arrIndexFrom : List JsonValue → Nat → String → Option JsonValue
  | [], _, _ => none
  | x :: xs, i, k => if toString i = k then some x else arrIndexFrom xs (i + 1) k

/-- Indexed character lookup in a string by string key: `s[k]` yields a
one-character string in JavaScript. -/
def strIndexFrom : List Char → Nat → String → Option JsonValue
  | [], _, _ => none
  | ch :: cs, i, k =>
      if toString i = k then some (.str (String.singleton ch)) else strIndexFrom cs (i + 1) k

/-- Property access `v[k]` on a defined, non-null value; `none` = `undefined`.
Access on `null` throws in JavaScript and is modelled separately
(`jsMemberE`); this total version is only applied where the base value is
known non-null. -/
def jsGetTot : JsonValue → String → Option JsonValue
  | .obj fs, k => lookupField fs k
  | .arr xs, k =>
      if k = "length" then some (.num xs.length) else arrIndexFrom xs 0 k
  | .str s, k =>
      if k = "length" then some (.num s.length) else strIndexFrom s.toList 0 k
  | _, _ => none

/-- `Object.keys`: own enumerable string keys, in insertion/index order.
Primitives other than strings have none; strings expose their indices.
(`Object.keys` on `null` throws and is modelled separately.) -/
def jsKeys : JsonValue → List String
  | .obj fs => fs.map (fun f => f.1)
  | .arr xs => (List.range xs.length).map (fun i => toString i)
  | .str s => (List.range s.length).map (fun i => toString i)
  | _ => []

/-- The `in` operator `k in v` for object/array operands: own-property test
(arrays also own `length`).  On primitives `in` throws a `TypeError`; those
cases are fenced off by `rootThrows` before this function is consulted, so
the value returned for them is irrelevant (`false`).  Prototype-inherited
names such as `"toString"` are outside the model: the repository only feeds
plain data objects whose keys are data keys. -/
def memKey : JsonValue → String → Bool
  | .obj fs, k => (lookupField fs k).isSome
  | .arr xs, k => (arrIndexFrom xs 0 k).isSome || k = "length"
  | _, _ => false

/-- Helper for `dedupKeys`: drop any key already seen. -/
def dedupAux : List String → List String → List String
  | [], _ => []
  | k :: ks, seen => if k ∈ seen then dedupAux ks seen else k :: dedupAux ks (k :: seen)

/-- De-duplication keeping the first occurrence, in order — the semantics of
iterating `new Set([...keys1, ...keys2])`. -/
def dedupKeys (ks : List String) : List String := dedupAux ks []

@[simp] theorem toString_nat_zero : toString (0 : Nat) = "0" := rfl

@[simp] theorem toString_nat_one : toString (1 : Nat) = "1" := rfl

@[simp] theorem toString_nat_two : toString (2 : Nat) = "2" := rfl

@[simp] theorem toString_nat_three : toString (3 : Nat) = "3" := rfl

@[simp] theorem toString_nat_four : toString (4 : Nat) = "4" := rfl

/-- JavaScript strict equality `===` as used by the differ and the meta-tag
comparison.  On primitives of equal type `===` is structural; on operands of
different types it is false.  On two objects/arrays `===` is reference
equality; in this module the two operands always come from independently
constructed trees (one parsed from the baseline file, one freshly
extracted), so two object operands are never identical references and
compare unequal. -/
def jsStrictEq : JsonValue → JsonValue → Bool
  | .null, .null => true
  | .bool a, .bool b => a == b
  | .num a, .num b => a == b
  | .str a, .str b => a == b
  | _, _ => false

/-- Strict equality lifted to possibly-`undefined` operands
(`undefined === undefined` is true). -/
def optStrictEq : Option JsonValue → Option JsonValue → Bool
  | none, none => true
  | some a, some b => jsStrictEq a b
  | _, _ => false

/-- One field-level difference record, as pushed by `findFieldDifferences`:
`added`/`removed` carry the one-sided value, `typeChanged`/`valueChanged`
carry both values, `arrayLengthChanged` carries both lengths. -/
inductive FieldDiff where
  | added (path : String) (value : Option JsonValue)
  | removed (path : String) (value : Option JsonValue)
  | typeChanged (path : String) (baseline current : Option JsonValue)
  | valueChanged (path : String) (baseline current : Option JsonValue)
  | arrayLengthChanged (path : String) (baselineLen currentLen : Nat)
deriving DecidableEq, Repr

/-- The path at which a difference was recorded. -/
def FieldDiff.path : FieldDiff → String
  | .added p _ => p
  | .removed p _ => p
  | .typeChanged p _ _ => p
  | .valueChanged p _ _ => p
  | .arrayLengthChanged p _ _ => p

/-- Whether a difference is an `array_length_changed` record. -/
def FieldDiff.isArrayLengthChanged : FieldDiff → Bool
  | .arrayLengthChanged _ _ _ => true
  | _ => false

/-- Whether a difference is a `type_changed` record. -/
def FieldDiff.isTypeChanged : FieldDiff → Bool
  | .typeChanged _ _ _ => true
  | _ => false

/-- The path of the entry for key `k` below path `p`:
`path ? path + "." + key : key`. -/
def keyPath (p k : String) : String :=
  if p = "" then k else p ++ "." ++ k

example : dedupKeys ["a", "b", "a"] = ["a", "b"] := rfl
example : jsGetTot (.arr [.num 7]) "0" = some (.num 7) := rfl
example : jsGetTot (.arr [.num 7]) "length" = some (.num 1) := rfl

/-! ## Size lemmas used for the differ's termination -/

theorem lookupField_sizeOf {fs : List (String × JsonValue)} {k : String} {v : JsonValue}
    (h : lookupField fs k = some v) : sizeOf v < sizeOf fs := by
  induction fs with
  | nil => simp [lookupField] at h
  | cons f fs ih =>
      obtain ⟨k', v'⟩ := f
      simp only [lookupField] at h
      split at h
      · cases h; simp; omega
      · have := ih h; simp; omega

theorem arrIndexFrom_sizeOf {xs : List JsonValue} {i : Nat} {k : String} {v : JsonValue}
    (h : arrIndexFrom xs i k = some v) : sizeOf v < sizeOf xs := by
  induction xs generalizing i with
  | nil => simp [arrIndexFrom] at h
  | cons x xs ih =>
      simp only [arrIndexFrom] at h
      split at h
      · cases h; simp; omega
      · have := ih h; simp; omega

theorem strIndexFrom_not_objecty {cs : List Char} {i : Nat} {k : String} {v : JsonValue}
    (h : strIndexFrom cs i k = some v) : v.objecty = false := by
  induction cs generalizing i with
  | nil => simp [strIndexFrom] at h
  | cons c cs ih =>
      simp only [strIndexFrom] at h
      split at h
      · cases h; rfl
      · exact ih h

/-- A defined property value that is itself a non-null object is a proper
subterm of its parent value. -/
theorem jsGetTot_objecty_sizeOf {b v : JsonValue} {k : String}
    (h : jsGetTot b k = some v) (ho : v.objecty = true) : sizeOf v < sizeOf b := by
  cases b with
  | obj fs =>
      have : sizeOf v < sizeOf fs := lookupField_sizeOf (by simpa [jsGetTot] using h)
      simp; omega
  | arr xs =>
      simp only [jsGetTot] at h
      split at h
      · cases h; simp [JsonValue.objecty] at ho
      · have := arrIndexFrom_sizeOf h
        simp; omega
  | str s =>
      simp only [jsGetTot] at h
      split at h
      · cases h; simp [JsonValue.objecty] at ho
      · have := strIndexFrom_not_objecty h; rw [this] at ho; cases ho
  | null => simp [jsGetTot] at h
  | bool b => simp [jsGetTot] at h
  | num n => simp [jsGetTot] at h

/-! ## The field-level differ (`findFieldDifferences`, source lines 186-276)

`ffdGo` is the body of the `for (const key of allKeys)` loop of
`findFieldDifferences`, processing the listed keys in order against the two
values `b` (baseline) and `c` (current); `ffdArr` is the inner
`for (let i = 0; i < minLength; i++)` loop comparing the overlapping index
range of two array values.  Both are only ever invoked on operand pairs for
which the source cannot throw (see `rootThrows`): recursive calls always
have both operands non-null objects/arrays. -/

mutual

/-- Per-key loop of `findFieldDifferences`: for each key of the de-duplicated
union of `Object.keys(b)` and `Object.keys(c)`, emit `added`/`removed` for
one-sided keys, `type_changed` on `typeof` mismatch, recurse into non-null
object pairs (arrays by overlapping index after an `array_length_changed`
check), and otherwise emit `value_changed` on strict inequality. -/
def ffdGo (b c : JsonValue) (p : String) : List String → List FieldDiff
  | [] => []
  | k :: ks =>
    (let cp := keyPath p k
     if memKey b k = false then [.added cp (jsGetTot c k)]
     else if memKey c k = false then [.removed cp (jsGetTot b k)]
     else if typeofU (jsGetTot b k) ≠ typeofU (jsGetTot c k) then
       [.typeChanged cp (jsGetTot b k) (jsGetTot c k)]
     else
       match hb : jsGetTot b k, hc : jsGetTot c k with
       | some (.arr xs), some (.arr ys) =>
           (if xs.length ≠ ys.length then [.arrayLengthChanged cp xs.length ys.length] else [])
             ++ ffdArr xs ys cp 0
       | some bv, some cv =>
           if hbo : bv.objecty && cv.objecty then
             ffdGo bv cv cp (dedupKeys (jsKeys bv ++ jsKeys cv))
           else if jsStrictEq bv cv = false then [.valueChanged cp (some bv) (some cv)]
           else []
       | _, _ => []) ++ ffdGo b c p ks
termination_by ks => (sizeOf b + sizeOf c, ks.length)
decreasing_by
  · apply Prod.Lex.left
    have h1 := jsGetTot_objecty_sizeOf hb (by rfl)
    have h2 := jsGetTot_objecty_sizeOf hc (by rfl)
    simp at h1 h2
    omega
  · apply Prod.Lex.left
    have h1 := jsGetTot_objecty_sizeOf hb (by simp at hbo; exact hbo.1)
    have h2 := jsGetTot_objecty_sizeOf hc (by simp at hbo; exact hbo.2)
    omega
  · apply Prod.Lex.right
    simp

/-- Array-overlap loop of `findFieldDifferences` (source lines 246-260):
compare items positionally at path `cp[i]`; recurse into non-null object
pairs, emit `value_changed` on strict inequality otherwise. -/
def ffdArr : List JsonValue → List JsonValue → String → Nat → List FieldDiff
  | bx :: bs, cx :: cs, cp, i =>
      (let ip := cp ++ "[" ++ toString i ++ "]"
       if hbo : bx.objecty && cx.objecty then
         ffdGo bx cx ip (dedupKeys (jsKeys bx ++ jsKeys cx))
       else if jsStrictEq bx cx = false then [.valueChanged ip (some bx) (some cx)]
       else []) ++ ffdArr bs cs cp (i + 1)
  | _, _, _, _ => []
termination_by bs cs _ _ => (sizeOf bs + sizeOf cs, 0)
decreasing_by
  · apply Prod.Lex.left
    simp
    omega
  · apply Prod.Lex.left
    simp
    omega

end

/-- A possibly-`undefined` value on which the `in` operator throws a
`TypeError` (any primitive, `null`, or `undefined`). -/
def primU : Option JsonValue → Bool
  | some v => !v.objecty
  | none => true

/-- `Object.keys(x || {})`: keys of a possibly-`undefined` value. -/
def keysOfU : Option JsonValue → List String
  | some v => jsKeys v
  | none => []

/-- The de-duplicated key union the source builds with
`new Set([...Object.keys(baseline || {}), ...Object.keys(current || {})])`. -/
def rootKeys (b c : Option JsonValue) : List String :=
  dedupKeys (keysOfU b ++ keysOfU c)

/-- Whether the top-level call of `findFieldDifferences` throws a
`TypeError`.  The loop evaluates `key in baseline` for the first key (a
throw if `baseline` is a primitive) and `key in current` for the first key
present in `baseline` (a throw if `current` is a primitive); keys only in
`current` take the `added` branch without consulting `current` with `in`.
Recursive calls always receive two non-null objects and never throw. -/
def rootThrows (b c : Option JsonValue) : Bool :=
  rootKeys b c ≠ [] && (primU b || (primU c && keysOfU b ≠ []))

/-- `findFieldDifferences(baseline, current, path)` (source lines 186-276).
The arguments are possibly-`undefined` values (the orchestrator passes
`item.data`, which can be `undefined`); a thrown `TypeError` is `.error`.
When no key forces a throw, the loop runs over the de-duplicated key union;
if either side is `undefined` or primitive the key union is then empty save
for `added` entries read off the other side, which `ffdGo` covers. -/
def findFieldDifferences (b c : Option JsonValue) (p : String) :
    Except String (List FieldDiff) :=
  if rootThrows b c then .error "TypeError"
  else match b, c with
    | some bv, some cv => .ok (ffdGo bv cv p (rootKeys b c))
    | _, _ => .ok []

/-! ## JSON-LD comparison (`compareJsonLdWithBaseline`, source lines 79-141) -/

/-- Property access `v[k]` where `v` is a defined value: access on `null`
throws a `TypeError` (`.error`); otherwise total. -/
def jsMemberE : JsonValue → String → Except String (Option JsonValue)
  | .null, _ => .error "TypeError"
  | v, k => .ok (jsGetTot v k)

/-- Property access on a possibly-`undefined` base value (`undefined.foo`
also throws). -/
def jsMemberEU : Option JsonValue → String → Except String (Option JsonValue)
  | none, _ => .error "TypeError"
  | some v, k => jsMemberE v k

/-- An entry of the `missingData`/`newData` buckets: `{index, data}`. -/
structure JsonLdEntry where
  index : Nat
  data : Option JsonValue
deriving DecidableEq, Repr

/-- An entry of the JSON-LD `differences` bucket.  An entry produced by the
error branch (source lines 112-121) carries the two whole items and no
`fieldDifferences`; an entry produced by the data branch (lines 127-135)
carries the two `data` values and the nested field-level diff. -/
structure JsonLdDiff where
  index : Nat
  baseline : Option JsonValue
  current : Option JsonValue
  fieldDifferences : Option (List FieldDiff)
deriving DecidableEq, Repr

/-- Build the `{index, data}` entries for the tail one side lacks
(source lines 86-103): `i` is the absolute index of the head item.
Accessing `.data` on a `null` item throws. -/
def jsonLdTailEntries : List JsonValue → Nat → Except String (List JsonLdEntry)
  | [], _ => .ok []
  | x :: xs, i => do
      let d ← jsMemberE x "data"
      let rest ← jsonLdTailEntries xs (i + 1)
      .ok (⟨i, d⟩ :: rest)

/-- Overlapping-prefix loop of `compareJsonLdWithBaseline` (source lines
107-136) over `(baselineItem, currentItem)` pairs, `i` the running index.
If either item has a truthy `error`, only the errors are compared (strict
equality); otherwise the `data` values are compared by `JSON.stringify`.
With object keys serialized in insertion order, `JSON.stringify` is
injective on this value model, so stringify inequality is structural
inequality.  On stringify mismatch the entry carries the field-level diff of
the two `data` values. -/
def jsonLdDiffItems : List (JsonValue × JsonValue) → Nat → Except String (List JsonLdDiff)
  | [], _ => .ok []
  | (bi, ci) :: rest, i => do
      let bErr ← jsMemberE bi "error"
      let cErr ← jsMemberE ci "error"
      if truthyU bErr || truthyU cErr then
        if optStrictEq bErr cErr = false then
          let tail ← jsonLdDiffItems rest (i + 1)
          .ok (⟨i, some bi, some ci, none⟩ :: tail)
        else jsonLdDiffItems rest (i + 1)
      else
        let bd ← jsMemberE bi "data"
        let cd ← jsMemberE ci "data"
        if bd ≠ cd then
          let fd ← findFieldDifferences bd cd ""
          let tail ← jsonLdDiffItems rest (i + 1)
          .ok (⟨i, bd, cd, some fd⟩ :: tail)
        else jsonLdDiffItems rest (i + 1)

/-- The result object of `compareJsonLdWithBaseline` (source line 140). -/
structure JsonLdResult where
  «matches» : Bool
  differences : List JsonLdDiff
  missingData : List JsonLdEntry
  newData : List JsonLdEntry
deriving DecidableEq, Repr

/-- `compareJsonLdWithBaseline(jsonLdData, baselineJsonLd)` (source lines
79-141): trailing baseline items into `missingData`, trailing current items
into `newData`, the overlapping prefix into `differences`; `matches` is the
conjunction of emptiness of the three buckets (line 138). -/
def compareJsonLdWithBaseline (jsonLdData baselineJsonLd : List JsonValue) :
    Except String JsonLdResult := do
  let missingData ←
    if baselineJsonLd.length > jsonLdData.length then
      jsonLdTailEntries (baselineJsonLd.drop jsonLdData.length) jsonLdData.length
    else .ok []
  let newData ←
    if jsonLdData.length > baselineJsonLd.length then
      jsonLdTailEntries (jsonLdData.drop baselineJsonLd.length) baselineJsonLd.length
    else .ok []
  let differences ← jsonLdDiffItems (baselineJsonLd.zip jsonLdData) 0
  let m := differences.isEmpty && missingData.isEmpty && newData.isEmpty
  .ok { «matches» := m, differences, missingData, newData }

/-! ## Meta-tags comparison (`compareMetaTagsWithBaseline`, source lines 149-177) -/

/-- `Object.keys(v)`: throws a `TypeError` on `null`, otherwise the own
enumerable keys. -/
def jsObjectKeysE : JsonValue → Except String (List String)
  | .null => .error "TypeError"
  | v => .ok (jsKeys v)

/-- The result object of `compareMetaTagsWithBaseline` (source line 176).
`differences` is a JavaScript object keyed by tag key, modelled as an
association list in insertion order; each entry is
`(key, (baseline content, current content))`. -/
structure MetaResult where
  «matches» : Bool
  differences : List (String × Option JsonValue × Option JsonValue)
  missingTags : List String
  newTags : List String
deriving DecidableEq, Repr

/-- First `forEach` of `compareMetaTagsWithBaseline` (source lines 156-165),
over the listed baseline keys: a falsy `metaTags[key]` goes to
`missingTags`; otherwise the two `content` fields are compared by strict
equality and a mismatch is recorded in `differences`.  Returns
`(differences, missingTags)`. -/
def metaScanBaseline (metaTags baselineMetaTags : JsonValue) :
    List String →
    Except String (List (String × Option JsonValue × Option JsonValue) × List String)
  | [] => .ok ([], [])
  | k :: ks => do
      let cur ← jsMemberE metaTags k
      if truthyU cur = false then
        let (ds, ms) ← metaScanBaseline metaTags baselineMetaTags ks
        .ok (ds, k :: ms)
      else
        let bc ← jsMemberEU (jsGetTot baselineMetaTags k) "content"
        let cc ← jsMemberEU cur "content"
        let (ds, ms) ← metaScanBaseline metaTags baselineMetaTags ks
        if optStrictEq bc cc = false then
          .ok ((k, bc, cc) :: ds, ms)
        else .ok (ds, ms)

/-- `compareMetaTagsWithBaseline(metaTags, baselineMetaTags)` (source lines
149-177).  `matches` is emptiness of the three buckets (line 174; for the
`differences` object the source counts its keys, which is empty iff the
association list is empty). -/
def compareMetaTagsWithBaseline (metaTags baselineMetaTags : JsonValue) :
    Except String MetaResult := do
  let baseKeys ← jsObjectKeysE baselineMetaTags
  let scanned ← metaScanBaseline metaTags baselineMetaTags baseKeys
  let curKeys ← jsObjectKeysE metaTags
  let newTags := curKeys.filter (fun k => truthyU (jsGetTot baselineMetaTags k) = false)
  let m := scanned.1.isEmpty && scanned.2.isEmpty && newTags.isEmpty
  .ok { «matches» := m, differences := scanned.1, missingTags := scanned.2, newTags }

/-! ## The orchestrator and the baseline store
(`compareWithBaseline`, `updateBaseline`, `ensureBaselineDirectory`) -/

/-- The persistent baseline store: the parsed JSON content of each baseline
file, keyed by full path.  `writeFileSync` overwrites whole files; a write
is modelled by prepending, with `lookupFile` finding the most recent
entry. -/
def lookupFile : List (String × JsonValue) → String → Option JsonValue
  | [], _ => none
  | (p, v) :: fs, q => if p = q then some v else lookupFile fs q

/-- `path.join(baselinePath, pageName + "-baseline.json")` (source line 43). -/
def baselineFileOf (baselinePath pageName : String) : String :=
  baselinePath ++ "/" ++ pageName ++ "-baseline.json"

/-- The object written on first run (source lines 49-53): for `json-ld`
`{jsonLdData, count: extractedData.length}` — when `extractedData.length`
is `undefined` the `count` field is omitted, as `JSON.stringify` drops
`undefined`-valued fields — otherwise `{metaTags, metaTagCount}`.
`extractedData.length` on `null` and `Object.keys(null)` throw. -/
def firstRunBaselineData (baselineType : String) (extractedData : JsonValue) :
    Except String JsonValue :=
  if baselineType = "json-ld" then do
    let len ← jsMemberE extractedData "length"
    .ok (.obj ([("jsonLdData", extractedData)] ++
      (match len with | some l => [("count", l)] | none => [])))
  else do
    let ks ← jsObjectKeysE extractedData
    .ok (.obj [("metaTags", extractedData), ("metaTagCount", .num ks.length)])

/-- The value returned by `compareWithBaseline`: a JSON-LD-shaped or a
meta-tags-shaped comparison result. -/
inductive CompResult where
  | jsonLd (r : JsonLdResult)
  | metaTags (r : MetaResult)
deriving DecidableEq, Repr

/-- The `matches` flag of a comparison result of either shape. -/
def CompResult.resMatches : CompResult → Bool
  | .jsonLd r => r.«matches»
  | .metaTags r => r.«matches»

/-- Emptiness of the three difference buckets of a result of either shape. -/
def CompResult.bucketsEmpty : CompResult → Bool
  | .jsonLd r => r.differences.isEmpty && r.missingData.isEmpty && r.newData.isEmpty
  | .metaTags r => r.differences.isEmpty && r.missingTags.isEmpty && r.newTags.isEmpty

/-- `compareWithBaseline(extractedData, pageName, baselinePath, baselineType)`
(source lines 42-71).  The store is passed and returned explicitly.  If the
baseline file does not exist the extracted value is persisted and a
matches-result of the kind-appropriate shape is returned (lines 46-58; note
any unsupported `baselineType` takes the meta-tags shape here).  Otherwise
the file is parsed and dispatched on `baselineType`, throwing
`Unsupported baseline type` for unknown kinds (line 69).  The stored
payloads this module itself writes are an array under `jsonLdData` and an
object under `metaTags`; comparison of a hand-edited non-array `jsonLdData`
payload is outside the model and mapped to a distinct error. -/
def compareWithBaseline (fsys : List (String × JsonValue)) (extractedData : JsonValue)
    (pageName baselinePath baselineType : String) :
    Except String (CompResult × List (String × JsonValue)) :=
  let baselineFile := baselineFileOf baselinePath pageName
  match lookupFile fsys baselineFile with
  | none => do
      let baselineData ← firstRunBaselineData baselineType extractedData
      let fsys' := (baselineFile, baselineData) :: fsys
      if baselineType = "json-ld" then
        .ok (.jsonLd ⟨true, [], [], []⟩, fsys')
      else
        .ok (.metaTags ⟨true, [], [], []⟩, fsys')
  | some baselineData =>
      if baselineType = "json-ld" then do
        let bjd ← jsMemberE baselineData "jsonLdData"
        match extractedData, bjd with
        | .arr cur, some (.arr base) => do
            let r ← compareJsonLdWithBaseline cur base
            .ok (.jsonLd r, fsys)
        | _, _ => .error "model: non-array json-ld payload"
      else if baselineType = "meta-tags" then do
        let bmt ← jsMemberE baselineData "metaTags"
        match bmt with
        | some bv => do
            let r ← compareMetaTagsWithBaseline extractedData bv
            .ok (.metaTags r, fsys)
        | none => .error "TypeError"
      else .error ("Unsupported baseline type: " ++ baselineType)

/-- `updateBaseline(extractedData, pageName, baselinePath, baselineType)`
(source lines 285-302): unconditionally overwrite the baseline file with the
current data plus count metadata and a `lastUpdated` ISO timestamp.  The
ambient clock value `new Date().toISOString()` is passed explicitly as
`nowIso`. -/
def updateBaseline (fsys : List (String × JsonValue)) (extractedData : JsonValue)
    (pageName baselinePath baselineType nowIso : String) :
    Except String (List (String × JsonValue)) := do
  let baselineFile := baselineFileOf baselinePath pageName
  let payload ←
    if baselineType = "json-ld" then do
      let len ← jsMemberE extractedData "length"
      .ok (.obj ([("jsonLdData", extractedData)] ++
        (match len with | some l => [("count", l)] | none => []) ++
        [("lastUpdated", .str nowIso)]))
    else do
      let ks ← jsObjectKeysE extractedData
      .ok (.obj [("metaTags", extractedData), ("metaTagCount", .num ks.length),
        ("lastUpdated", .str nowIso)])
  .ok ((baselineFile, payload) :: fsys)

/-- The load half of the round trip: read and parse the baseline file and
select the kind's payload field, exactly as the comparison path does
(source lines 61, 65, 67). -/
def loadBaselinePayload (fsys : List (String × JsonValue))
    (pageName baselinePath baselineType : String) : Except String (Option JsonValue) :=
  match lookupFile fsys (baselineFileOf baselinePath pageName) with
  | none => .error "NotFound"
  | some baselineData =>
      jsMemberE baselineData (if baselineType = "json-ld" then "jsonLdData" else "metaTags")

/-- The directory state seen by `ensureBaselineDirectory`: for each existing
path, whether it is a directory (`true`) or a regular file (`false`). -/
def lookupEntry : List (String × Bool) → String → Option Bool
  | [], _ => none
  | (p, d) :: es, q => if p = q then some d else lookupEntry es q

/-- `ensureBaselineDirectory(baselinePath)` (source lines 308-313): if
`fs.existsSync(baselinePath)` — true for *any* existing entry, directory or
not — do nothing; otherwise `fs.mkdirSync(baselinePath, {recursive: true})`.
The function has no error path of its own: it throws only if `mkdirSync`
itself fails (e.g. an unwritable parent), which is outside this model; in
particular, when the path already exists — even as a regular file —
`mkdirSync` is never called and the function returns normally. -/
def ensureBaselineDirectory (entries : List (String × Bool)) (baselinePath : String) :
    Except String (List (String × Bool)) :=
  match lookupEntry entries baselinePath with
  | some _ => .ok entries
  | none => .ok ((baselinePath, true) :: entries)

/-! ## Claim C1: `matches` iff all three difference buckets are empty -/

theorem compareJsonLd_matches_iff {cur base : List JsonValue} {r : JsonLdResult}
    (h : compareJsonLdWithBaseline cur base = .ok r) :
    (r.«matches» = true ↔ r.differences = [] ∧ r.missingData = [] ∧ r.newData = []) := by
  unfold compareJsonLdWithBaseline at h
  simp only [bind, Except.bind] at h
  repeat' split at h
  all_goals first
    | exact (Except.noConfusion h)
    | (injection h with h
       subst h
       simp [List.isEmpty_iff, and_assoc])

theorem compareMetaTags_matches_iff {mt bt : JsonValue} {r : MetaResult}
    (h : compareMetaTagsWithBaseline mt bt = .ok r) :
    (r.«matches» = true ↔ r.differences = [] ∧ r.missingTags = [] ∧ r.newTags = []) := by
  unfold compareMetaTagsWithBaseline at h
  simp only [bind, Except.bind] at h
  repeat' split at h
  all_goals first
    | exact (Except.noConfusion h)
    | (injection h with h
       subst h
       simp [List.isEmpty_iff, and_assoc])

theorem compareWithBaseline_firstRun_matches
    {fsys : List (String × JsonValue)} {v : JsonValue} {n bp bt : String}
    {r : CompResult} {fsys' : List (String × JsonValue)}
    (hnone : lookupFile fsys (baselineFileOf bp n) = none)
    (h : compareWithBaseline fsys v n bp bt = .ok (r, fsys')) :
    r.resMatches = true ∧ r.bucketsEmpty = true := by
  unfold compareWithBaseline at h
  simp only [hnone, bind, Except.bind] at h
  repeat' split at h
  all_goals first
    | exact (Except.noConfusion h)
    | (injection h with h
       injection h with h1 h2
       subst h1
       exact ⟨rfl, rfl⟩)

/-- **C1**: for every comparison with an existing baseline (both the JSON-LD
and the meta-tags kind) and for the first-run result, the returned result's
`matches` flag is true iff all three difference buckets are empty. -/
theorem C1_matches_iff_empty_buckets :
    (∀ (cur base : List JsonValue) (r : JsonLdResult),
        compareJsonLdWithBaseline cur base = .ok r →
        (r.«matches» = true ↔ r.differences = [] ∧ r.missingData = [] ∧ r.newData = [])) ∧
    (∀ (mt bt : JsonValue) (r : MetaResult),
        compareMetaTagsWithBaseline mt bt = .ok r →
        (r.«matches» = true ↔ r.differences = [] ∧ r.missingTags = [] ∧ r.newTags = [])) ∧
    (∀ (fsys : List (String × JsonValue)) (v : JsonValue) (n bp bt : String)
        (r : CompResult) (fsys' : List (String × JsonValue)),
        lookupFile fsys (baselineFileOf bp n) = none →
        compareWithBaseline fsys v n bp bt = .ok (r, fsys') →
        r.resMatches = true ∧ r.bucketsEmpty = true) :=
  ⟨fun _ _ _ h => compareJsonLd_matches_iff h,
   fun _ _ _ h => compareMetaTags_matches_iff h,
   fun _ _ _ _ _ _ _ hn h => compareWithBaseline_firstRun_matches hn h⟩

/-- Witness for C1 at a concrete input: the empty JSON-LD comparison. -/
theorem C1_witness :
    ((JsonLdResult.mk true [] [] []).«matches» = true ↔
      (JsonLdResult.mk true [] [] []).differences = [] ∧
      (JsonLdResult.mk true [] [] []).missingData = [] ∧
      (JsonLdResult.mk true [] [] []).newData = []) :=
  C1_matches_iff_empty_buckets.1 [] [] ⟨true, [], [], []⟩ rfl

/-! ## Claim C2: baseline `null` against a non-null object -/

/-- In JavaScript `typeof null === "object"`, so for a key whose baseline
value is `null` and whose current value is a non-null object the `typeof`
test passes, the recursion guard `baselineValue !== null` fails, and the
strict-inequality branch fires: the differ emits `value_changed`. -/
theorem ffdGo_null_vs_object (b c : JsonValue) (p k : String) (v : JsonValue)
    (hb : jsGetTot b k = some .null) (hc : jsGetTot c k = some v) (hv : v.objecty = true)
    (hmb : memKey b k = true) (hmc : memKey c k = true) :
    ffdGo b c p [k] = [.valueChanged (keyPath p k) (some .null) (some v)] := by
  cases v with
  | arr xs =>
      simp only [ffdGo, hb, hc, hmb, hmc, typeofU, JsonValue.jsTypeof]
      repeat' split
      all_goals simp_all [JsonValue.objecty, jsStrictEq, ffdGo]
  | obj fs =>
      simp only [ffdGo, hb, hc, hmb, hmc, typeofU, JsonValue.jsTypeof]
      repeat' split
      all_goals simp_all [JsonValue.objecty, jsStrictEq, ffdGo]
  | null => simp [JsonValue.objecty] at hv
  | bool b' => simp [JsonValue.objecty] at hv
  | num n' => simp [JsonValue.objecty] at hv
  | str s' => simp [JsonValue.objecty] at hv

/-- Symmetric case: baseline non-null object against current `null`. -/
theorem ffdGo_object_vs_null (b c : JsonValue) (p k : String) (v : JsonValue)
    (hb : jsGetTot b k = some v) (hc : jsGetTot c k = some .null) (hv : v.objecty = true)
    (hmb : memKey b k = true) (hmc : memKey c k = true) :
    ffdGo b c p [k] = [.valueChanged (keyPath p k) (some v) (some .null)] := by
  cases v with
  | arr xs =>
      simp only [ffdGo, hb, hc, hmb, hmc, typeofU, JsonValue.jsTypeof]
      repeat' split
      all_goals simp_all [JsonValue.objecty, jsStrictEq, ffdGo]
  | obj fs =>
      simp only [ffdGo, hb, hc, hmb, hmc, typeofU, JsonValue.jsTypeof]
      repeat' split
      all_goals simp_all [JsonValue.objecty, jsStrictEq, ffdGo]
  | null => simp [JsonValue.objecty] at hv
  | bool b' => simp [JsonValue.objecty] at hv
  | num n' => simp [JsonValue.objecty] at hv
  | str s' => simp [JsonValue.objecty] at hv

/-- Array-item case of the same situation: a `null` item against a non-null
object item is not "both non-null objects", so positional comparison takes
the strict-inequality branch and emits `value_changed`. -/
theorem ffdArr_null_vs_object (bs cs : List JsonValue) (p : String) (i : Nat)
    (v : JsonValue) (hv : v.objecty = true) :
    ffdArr (.null :: bs) (v :: cs) p i
      = .valueChanged (p ++ "[" ++ toString i ++ "]") (some .null) (some v)
        :: ffdArr bs cs p (i + 1) := by
  cases v <;> simp_all [ffdArr, JsonValue.objecty, jsStrictEq]

/-- Symmetric array-item case. -/
theorem ffdArr_object_vs_null (bs cs : List JsonValue) (p : String) (i : Nat)
    (v : JsonValue) (hv : v.objecty = true) :
    ffdArr (v :: bs) (.null :: cs) p i
      = .valueChanged (p ++ "[" ++ toString i ++ "]") (some v) (some .null)
        :: ffdArr bs cs p (i + 1) := by
  cases v <;> simp_all [ffdArr, JsonValue.objecty, jsStrictEq]

/-- Counterexample to **C2**: diffing `{a: null}` against `{a: {}}` emits a
`value_changed` at path `"a"`, not a `type_changed` (and no recursion):
`typeof null === "object"` makes the `typeof` test pass. -/
theorem C2_counterexample :
    findFieldDifferences (some (.obj [("a", .null)])) (some (.obj [("a", .obj [])])) ""
      = .ok [.valueChanged "a" (some .null) (some (.obj []))] ∧
    (FieldDiff.valueChanged "a" (some .null) (some (.obj []))).isTypeChanged = false := by
  constructor
  · simp [findFieldDifferences, rootThrows, rootKeys, keysOfU, jsKeys, dedupKeys, dedupAux,
      ffdGo, primU, memKey, lookupField, jsGetTot, typeofU, JsonValue.jsTypeof, keyPath,
      JsonValue.objecty, jsStrictEq]
  · rfl

/-- **C2** (amended): for every path at which the baseline value is `null`
and the current value is a non-null object (or vice versa), the field-level
differ emits a `value_changed` difference at that path carrying both values
— never a `type_changed`, and it does not recurse into the object.  (Both
for object keys and for array items.) -/
theorem C2_null_vs_object_is_value_changed :
    (∀ (b c : JsonValue) (p k : String) (v : JsonValue),
        jsGetTot b k = some .null → jsGetTot c k = some v → v.objecty = true →
        memKey b k = true → memKey c k = true →
        ffdGo b c p [k] = [.valueChanged (keyPath p k) (some .null) (some v)]) ∧
    (∀ (b c : JsonValue) (p k : String) (v : JsonValue),
        jsGetTot b k = some v → jsGetTot c k = some .null → v.objecty = true →
        memKey b k = true → memKey c k = true →
        ffdGo b c p [k] = [.valueChanged (keyPath p k) (some v) (some .null)]) ∧
    (∀ (bs cs : List JsonValue) (p : String) (i : Nat) (v : JsonValue),
        v.objecty = true →
        ffdArr (.null :: bs) (v :: cs) p i
          = .valueChanged (p ++ "[" ++ toString i ++ "]") (some .null) (some v)
            :: ffdArr bs cs p (i + 1)) ∧
    (∀ (bs cs : List JsonValue) (p : String) (i : Nat) (v : JsonValue),
        v.objecty = true →
        ffdArr (v :: bs) (.null :: cs) p i
          = .valueChanged (p ++ "[" ++ toString i ++ "]") (some v) (some .null)
            :: ffdArr bs cs p (i + 1)) :=
  ⟨ffdGo_null_vs_object, ffdGo_object_vs_null, ffdArr_null_vs_object, ffdArr_object_vs_null⟩

/-- Witness for the amended C2 at a concrete input. -/
theorem C2_witness :
    ffdGo (.obj [("k", .null)]) (.obj [("k", .arr [])]) "" ["k"]
      = [.valueChanged (keyPath "" "k") (some .null) (some (.arr []))] :=
  C2_null_vs_object_is_value_changed.1 (.obj [("k", .null)]) (.obj [("k", .arr [])]) "" "k"
    (.arr []) rfl rfl rfl rfl rfl

/-! ## Claim C3: root-level type mismatch -/

/-- Counterexample to **C3**: `findFieldDifferences(5, true)` returns the
empty list — not a single `type_changed` at the root path.  The source has
no root-level type check at all: it immediately iterates the union of
`Object.keys` of both sides, which is empty for keyless scalars. -/
theorem C3_counterexample :
    findFieldDifferences (some (.num 5)) (some (.bool true)) "" = .ok [] ∧
    ¬ (∃ d : FieldDiff, findFieldDifferences (some (.num 5)) (some (.bool true)) ""
          = .ok [d] ∧ d.isTypeChanged = true ∧ d.path = "") := by
  have hval : findFieldDifferences (some (.num 5)) (some (.bool true)) "" = .ok [] := by
    simp [findFieldDifferences, rootThrows, rootKeys, keysOfU, jsKeys, dedupKeys, dedupAux, ffdGo]
  refine ⟨hval, ?_⟩
  rintro ⟨d, hd, -, -⟩
  rw [hval] at hd
  simp at hd

/-- **C3** (amended): the differ performs no root-level type dispatch.  For
any two values with no enumerable keys (`null`, booleans, numbers — in
particular any pair of such values of differing JSON types) it returns the
empty difference list, reporting nothing at the root. -/
theorem C3_keyless_scalars_diff_empty (a b : JsonValue) (p : String)
    (ha : jsKeys a = []) (hb : jsKeys b = []) :
    findFieldDifferences (some a) (some b) p = .ok [] := by
  simp [findFieldDifferences, rootThrows, rootKeys, keysOfU, ha, hb, dedupKeys, dedupAux, ffdGo]

/-- Witness for the amended C3 at a concrete input. -/
theorem C3_witness :
    jsKeys (.num 7) = [] ∧ jsKeys (.bool false) = [] ∧
    findFieldDifferences (some (.num 7)) (some (.bool false)) "x" = .ok [] :=
  ⟨rfl, rfl, C3_keyless_scalars_diff_empty (.num 7) (.bool false) "x" rfl rfl⟩

/-! ## Claim C5: array length changes -/

theorem keyPath_length_ge (q k : String) : q.length ≤ (keyPath q k).length := by
  unfold keyPath
  split
  · simp_all
  · simp [String.length_append]
    omega

/-- Every difference produced below a key path is at least as long as that
path, and every difference produced inside an array comparison is strictly
longer than the array's own path (item paths append `[i]`): so no
difference produced inside an array's positional comparison sits at the
array's own path. -/
theorem ffd_path_bounds :
    (∀ (b c : JsonValue) (q : String) (ks : List String),
        ∀ d ∈ ffdGo b c q ks, q.length ≤ d.path.length) ∧
    (∀ (xs ys : List JsonValue) (q : String) (i : Nat),
        ∀ d ∈ ffdArr xs ys q i, q.length < d.path.length) := by
  refine
    ⟨@ffdGo.induct
        (fun b c q ks => ∀ d ∈ ffdGo b c q ks, q.length ≤ d.path.length)
        (fun xs ys q i => ∀ d ∈ ffdArr xs ys q i, q.length < d.path.length)
        ?s1 ?s2 ?s3 ?s4,
      @ffdArr.induct
        (fun b c q ks => ∀ d ∈ ffdGo b c q ks, q.length ≤ d.path.length)
        (fun xs ys q i => ∀ d ∈ ffdArr xs ys q i, q.length < d.path.length)
        ?s1 ?s2 ?s3 ?s4⟩
  case s1 =>
    intro b c p d hd
    simp [ffdGo] at hd
  case s2 =>
    intro b c p k ks harr hobj htail d hd
    simp only [ffdGo] at hd
    rw [List.mem_append] at hd
    rcases hd with hd | hd
    · have hkp := keyPath_length_ge p k
      repeat' split at hd
      · rw [List.mem_singleton] at hd
        subst hd
        simpa [FieldDiff.path] using hkp
      · rw [List.mem_singleton] at hd
        subst hd
        simpa [FieldDiff.path] using hkp
      · rw [List.mem_singleton] at hd
        subst hd
        simpa [FieldDiff.path] using hkp
      · rename_i xs ys hxs hys hlen
        rw [List.mem_append] at hd
        rcases hd with hd | hd
        · rw [List.mem_singleton] at hd
          subst hd
          simpa [FieldDiff.path] using hkp
        · exact le_trans hkp (le_of_lt (harr xs ys hxs hys d hd))
      · rename_i xs ys hxs hys hlen
        rw [List.nil_append] at hd
        exact le_trans hkp (le_of_lt (harr xs ys hxs hys d hd))
      · rename_i bv cv hover hbv hcv hbo
        exact le_trans hkp (hobj bv cv hbv hcv hbo d hd)
      · rw [List.mem_singleton] at hd
        subst hd
        simpa [FieldDiff.path] using hkp
      · exact absurd hd (List.not_mem_nil d)
      · exact absurd hd (List.not_mem_nil d)
    · exact htail d hd
  case s3 =>
    intro bx bs cx cs cp i hinner htail d hd
    simp only [ffdArr] at hd
    rw [List.mem_append] at hd
    have hip : cp.length < (cp ++ "[" ++ toString i ++ "]").length := by
      have h1 : ("[" : String).length = 1 := rfl
      have h2 : ("]" : String).length = 1 := rfl
      simp [String.length_append, h1, h2]
      omega
    rcases hd with hd | hd
    · split at hd
      · exact lt_of_lt_of_le hip (hinner d hd)
      · split at hd
        · rw [List.mem_singleton] at hd
          subst hd
          simpa [FieldDiff.path] using hip
        · exact absurd hd (List.not_mem_nil d)
    · exact htail d hd
  case s4 =>
    intro x x1 x2 x3 hne d hd
    cases x with
    | nil => simp [ffdArr] at hd
    | cons bx bs =>
        cases x1 with
        | nil => simp [ffdArr] at hd
        | cons cx cs => exact (hne bx bs cx cs rfl rfl).elim

/-- For an array pair reached at a key, with differing lengths, the differ
emits the `array_length_changed` entry at that key's path followed by the
positional comparison of the overlapping index range. -/
theorem ffdGo_array_key (b c : JsonValue) (p k : String) (xs ys : List JsonValue)
    (hb : jsGetTot b k = some (.arr xs)) (hc : jsGetTot c k = some (.arr ys))
    (hmb : memKey b k = true) (hmc : memKey c k = true) (hlen : xs.length ≠ ys.length) :
    ffdGo b c p [k]
      = .arrayLengthChanged (keyPath p k) xs.length ys.length
          :: ffdArr xs ys (keyPath p k) 0 := by
  simp only [ffdGo, hb, hc, hmb, hmc, typeofU, JsonValue.jsTypeof]
  repeat' split
  all_goals simp_all [JsonValue.objecty, jsStrictEq, ffdGo]

/-- Counterexample to **C5**: at the *root*, `findFieldDifferences` has no
`Array.isArray` check — the two arrays are treated as index-keyed objects,
so diffing baseline `[1,2,3]` against current `[1,2]` yields a single
`removed` entry at path `"2"` and *no* `array_length_changed`. -/
theorem C5_counterexample :
    findFieldDifferences (some (.arr [.num 1, .num 2, .num 3]))
        (some (.arr [.num 1, .num 2])) ""
      = .ok [.removed "2" (some (.num 3))] ∧
    (FieldDiff.removed "2" (some (.num 3))).isArrayLengthChanged = false := by
  constructor
  · simp [findFieldDifferences, rootThrows, rootKeys, keysOfU, jsKeys, dedupKeys, dedupAux,
      ffdGo, primU, memKey, lookupField, jsGetTot, arrIndexFrom, typeofU, JsonValue.jsTypeof,
      keyPath, JsonValue.objecty, jsStrictEq, List.range_succ]
  · rfl

/-- **C5** (amended): when an array pair of differing lengths is reached *as
the value of a key* (any position the recursion reaches), the differ emits
exactly one `array_length_changed` at that key's path — carrying both
lengths — followed by the positional differences of the overlapping index
range, all of which carry strictly longer paths; and in the spec's scenario
(`{a:[1,2,3]}` vs `{a:[1,2]}`) the output is exactly that one entry, with
no value differences for indices 0-1.  At the root, by contrast, arrays are
diffed as index-keyed objects and no `array_length_changed` is emitted (see
the counterexample). -/
theorem C5_array_length_changed :
    (∀ (b c : JsonValue) (p k : String) (xs ys : List JsonValue),
        jsGetTot b k = some (.arr xs) → jsGetTot c k = some (.arr ys) →
        memKey b k = true → memKey c k = true → xs.length ≠ ys.length →
        ffdGo b c p [k]
          = .arrayLengthChanged (keyPath p k) xs.length ys.length
              :: ffdArr xs ys (keyPath p k) 0 ∧
        ∀ d ∈ ffdArr xs ys (keyPath p k) 0, d.path ≠ keyPath p k) ∧
    findFieldDifferences (some (.obj [("a", .arr [.num 1, .num 2, .num 3])]))
        (some (.obj [("a", .arr [.num 1, .num 2])])) ""
      = .ok [.arrayLengthChanged "a" 3 2] := by
  constructor
  · intro b c p k xs ys hb hc hmb hmc hlen
    refine ⟨ffdGo_array_key b c p k xs ys hb hc hmb hmc hlen, ?_⟩
    intro d hd hEq
    have := ffd_path_bounds.2 xs ys (keyPath p k) 0 d hd
    rw [hEq] at this
    exact lt_irrefl _ this
  · simp [findFieldDifferences, rootThrows, rootKeys, keysOfU, jsKeys, dedupKeys, dedupAux,
      ffdGo, ffdArr, primU, memKey, lookupField, jsGetTot, arrIndexFrom, typeofU,
      JsonValue.jsTypeof, keyPath, JsonValue.objecty, jsStrictEq, List.range_succ]

/-- Witness for the amended C5 at a concrete input. -/
theorem C5_witness :
    (ffdGo (.obj [("a", .arr [.num 1])]) (.obj [("a", .arr [])]) "" ["a"]
        = .arrayLengthChanged (keyPath "" "a") 1 0
            :: ffdArr [.num 1] [] (keyPath "" "a") 0 ∧
      ∀ d ∈ ffdArr [.num 1] [] (keyPath "" "a") 0, d.path ≠ keyPath "" "a") :=
  C5_array_length_changed.1 (.obj [("a", .arr [.num 1])]) (.obj [("a", .arr [])]) "" "a"
    [.num 1] [] rfl rfl rfl rfl (by simp)

/-! ## Claims C4 and C10: the first-run path and unsupported baseline types -/

theorem jsMemberE_ne_null {v : JsonValue} (hv : v ≠ .null) (k : String) :
    jsMemberE v k = .ok (jsGetTot v k) := by
  cases v <;> simp_all [jsMemberE]

theorem jsObjectKeysE_ne_null {v : JsonValue} (hv : v ≠ .null) :
    jsObjectKeysE v = .ok (jsKeys v) := by
  cases v <;> simp_all [jsObjectKeysE]

theorem firstRunBaselineData_jsonld (v : JsonValue) (hv : v ≠ .null) :
    firstRunBaselineData "json-ld" v
      = .ok (.obj (("jsonLdData", v) ::
          (match jsGetTot v "length" with | some l => [("count", l)] | none => []))) := by
  simp [firstRunBaselineData, jsMemberE_ne_null hv, bind, Except.bind]

theorem firstRunBaselineData_other (bt : String) (v : JsonValue) (hv : v ≠ .null)
    (hbt : bt ≠ "json-ld") :
    firstRunBaselineData bt v
      = .ok (.obj [("metaTags", v), ("metaTagCount", .num (jsKeys v).length)]) := by
  simp [firstRunBaselineData, hbt, jsObjectKeysE_ne_null hv, bind, Except.bind]

/-- Counterexample to **C4**: the first-run path is not error-free for every
extracted value — for the `null` extracted value (a JSON-compatible value
per the spec's own data model) the meta-tags count computation
`Object.keys(extractedData)` throws a `TypeError`, although no baseline file
exists. -/
theorem C4_counterexample :
    lookupFile ([] : List (String × JsonValue)) (baselineFileOf "b" "p") = none ∧
    compareWithBaseline [] .null "p" "b" "meta-tags" = .error "TypeError" := ⟨rfl, rfl⟩

/-- **C4** (amended): for every *non-null* extracted value (and every page
name and kind), when no baseline file exists `compareWithBaseline` persists
the extracted value (wrapped under the kind's payload field) as the new
baseline file and returns a result with `matches: true` and all three
buckets empty; the absent-baseline condition is never surfaced as an error.
For the `null` extracted value the kind's count computation throws a
`TypeError` before anything is written. -/
theorem C4_first_run (fsys : List (String × JsonValue)) (v : JsonValue)
    (n bp bt : String) (hv : v ≠ .null)
    (hnone : lookupFile fsys (baselineFileOf bp n) = none) :
    ∃ (r : CompResult) (payload : JsonValue),
      compareWithBaseline fsys v n bp bt
        = .ok (r, (baselineFileOf bp n, payload) :: fsys) ∧
      r.resMatches = true ∧ r.bucketsEmpty = true ∧
      jsGetTot payload (if bt = "json-ld" then "jsonLdData" else "metaTags") = some v := by
  by_cases hbt : bt = "json-ld"
  · subst hbt
    refine ⟨.jsonLd ⟨true, [], [], []⟩,
      .obj (("jsonLdData", v) ::
        (match jsGetTot v "length" with | some l => [("count", l)] | none => [])),
      ?_, rfl, rfl, ?_⟩
    · unfold compareWithBaseline
      simp [hnone, firstRunBaselineData_jsonld v hv, bind, Except.bind]
    · simp [jsGetTot, lookupField]
  · refine ⟨.metaTags ⟨true, [], [], []⟩,
      .obj [("metaTags", v), ("metaTagCount", .num (jsKeys v).length)], ?_, rfl, rfl, ?_⟩
    · unfold compareWithBaseline
      simp [hnone, firstRunBaselineData_other bt v hv hbt, hbt, bind, Except.bind]
    · simp [hbt, jsGetTot, lookupField]

/-- Witness for the amended C4 at a concrete input. -/
theorem C4_witness :
    ∃ (r : CompResult) (payload : JsonValue),
      compareWithBaseline [] (.obj []) "home" "base" "meta-tags"
        = .ok (r, (baselineFileOf "base" "home", payload) :: []) ∧
      r.resMatches = true ∧ r.bucketsEmpty = true ∧
      jsGetTot payload (if "meta-tags" = "json-ld" then "jsonLdData" else "metaTags")
        = some (.obj []) :=
  C4_first_run [] (.obj []) "home" "base" "meta-tags" (by simp) rfl

/-- Counterexample to **C10**: with an unsupported baseline type and no
baseline file, the call is *not* raise-free for every extracted value: for
the `null` extracted value it throws a `TypeError` (not the
`Unsupported baseline type` error) while computing the meta-tags-shaped
count for the file it is about to write. -/
theorem C10_counterexample :
    lookupFile ([] : List (String × JsonValue)) (baselineFileOf "b" "p") = none ∧
    compareWithBaseline [] .null "p" "b" "custom" = .error "TypeError" ∧
    "TypeError" ≠ "Unsupported baseline type: custom" := ⟨rfl, rfl, by decide⟩

/-- **C10** (amended): for every baselineType other than `json-ld` and
`meta-tags`, `compareWithBaseline` raises the `Unsupported baseline type`
error exactly when a baseline file for the page already exists; when no
baseline file exists and the extracted value is non-null, the same call does
not raise: it silently writes a meta-tags-shaped baseline file containing
the extracted value and returns a meta-tags-shaped result with
`matches: true` (for the `null` extracted value it instead throws a
`TypeError` while computing the count). -/
theorem C10_unsupported_type :
    (∀ (fsys : List (String × JsonValue)) (v : JsonValue) (n bp bt : String)
        (bd : JsonValue),
        bt ≠ "json-ld" → bt ≠ "meta-tags" →
        lookupFile fsys (baselineFileOf bp n) = some bd →
        compareWithBaseline fsys v n bp bt
          = .error ("Unsupported baseline type: " ++ bt)) ∧
    (∀ (fsys : List (String × JsonValue)) (v : JsonValue) (n bp bt : String),
        bt ≠ "json-ld" → bt ≠ "meta-tags" → v ≠ .null →
        lookupFile fsys (baselineFileOf bp n) = none →
        compareWithBaseline fsys v n bp bt
          = .ok (.metaTags ⟨true, [], [], []⟩,
              (baselineFileOf bp n,
                .obj [("metaTags", v), ("metaTagCount", .num (jsKeys v).length)]) :: fsys)) := by
  constructor
  · intro fsys v n bp bt bd h1 h2 hsome
    unfold compareWithBaseline
    simp [hsome, h1, h2]
  · intro fsys v n bp bt h1 h2 hv hnone
    unfold compareWithBaseline
    simp [hnone, firstRunBaselineData_other bt v hv h1, h1, bind, Except.bind]

/-- Witness for the amended C10 at a concrete input. -/
theorem C10_witness :
    compareWithBaseline [(baselineFileOf "b" "p", .obj [])] (.obj []) "p" "b" "custom"
      = .error ("Unsupported baseline type: " ++ "custom") :=
  C10_unsupported_type.1 [(baselineFileOf "b" "p", .obj [])] (.obj []) "p" "b" "custom"
    (.obj []) (by decide) (by decide) rfl

/-! ## Claim C7: save/load round trip -/

/-- Counterexample to **C7**: saving the value `null` (a JSON-compatible
value per the spec's data model) throws a `TypeError` while computing the
count metadata (`null.length` for `json-ld`), so no save happens and
nothing can be loaded back. -/
theorem C7_counterexample :
    updateBaseline [] .null "p" "b" "json-ld" "2024-01-01T00:00:00.000Z"
      = .error "TypeError" := rfl

/-- **C7** (amended): for every *non-null* value v, page name, kind and
clock reading, saving v with `updateBaseline` and then loading the baseline
payload for the same page name and kind yields exactly v; the stored file
object differs from the bare payload only by the kind's payload wrapper
field, the kind-specific count metadata, and the added `lastUpdated`
timestamp.  (For v = null both kinds throw a `TypeError` computing the
count; see the counterexample.) -/
theorem C7_roundtrip (fsys : List (String × JsonValue)) (v : JsonValue)
    (n bp kind now : String) (hv : v ≠ .null) :
    ∃ payload : JsonValue,
      updateBaseline fsys v n bp kind now = .ok ((baselineFileOf bp n, payload) :: fsys) ∧
      jsGetTot payload (if kind = "json-ld" then "jsonLdData" else "metaTags") = some v ∧
      jsGetTot payload "lastUpdated" = some (.str now) ∧
      loadBaselinePayload ((baselineFileOf bp n, payload) :: fsys) n bp kind
        = .ok (some v) := by
  by_cases hk : kind = "json-ld"
  · subst hk
    refine ⟨.obj (("jsonLdData", v) ::
        ((match jsGetTot v "length" with | some l => [("count", l)] | none => []) ++
          [("lastUpdated", .str now)])), ?_, ?_, ?_, ?_⟩
    · unfold updateBaseline
      simp [jsMemberE_ne_null hv, bind, Except.bind]
    · simp [jsGetTot, lookupField]
    · cases hlen : jsGetTot v "length" <;>
        simp [jsGetTot, lookupField]
    · unfold loadBaselinePayload
      simp [lookupFile, jsMemberE, jsGetTot, lookupField]
  · refine ⟨.obj [("metaTags", v), ("metaTagCount", .num (jsKeys v).length),
        ("lastUpdated", .str now)], ?_, ?_, ?_, ?_⟩
    · unfold updateBaseline
      simp [hk, jsObjectKeysE_ne_null hv, bind, Except.bind]
    · simp [hk, jsGetTot, lookupField]
    · simp [jsGetTot, lookupField]
    · unfold loadBaselinePayload
      simp [hk, lookupFile, jsMemberE, jsGetTot, lookupField]

/-- Witness for the amended C7 at a concrete input. -/
theorem C7_witness :
    ∃ payload : JsonValue,
      updateBaseline [] (.arr [.num 1]) "p" "b" "json-ld" "t"
        = .ok ((baselineFileOf "b" "p", payload) :: []) ∧
      jsGetTot payload (if "json-ld" = "json-ld" then "jsonLdData" else "metaTags")
        = some (.arr [.num 1]) ∧
      jsGetTot payload "lastUpdated" = some (.str "t") ∧
      loadBaselinePayload [(baselineFileOf "b" "p", payload)] "p" "b" "json-ld"
        = .ok (some (.arr [.num 1])) :=
  C7_roundtrip [] (.arr [.num 1]) "p" "b" "json-ld" "t" (by simp)

/-! ## Claim C8: `ensureBaselineDirectory` -/

/-- Counterexample to **C8**: when the path exists as a regular file (a
non-directory), `ensureBaselineDirectory` silently succeeds — `existsSync`
is true, so `mkdirSync` is never called and no `IOError` is signalled; the
non-directory entry is left in place. -/
theorem C8_counterexample :
    ensureBaselineDirectory [("b", false)] "b" = .ok [("b", false)] ∧
    lookupEntry [("b", false)] "b" = some false := ⟨rfl, rfl⟩

/-- **C8** (amended): `ensureBaselineDirectory` is idempotent, and when the
path exists — whether as a directory or as any other entry — it changes
nothing and succeeds without signalling; when the path does not exist it
creates the directory.  It never signals an error for an existing
non-directory path. -/
theorem C8_ensure_directory :
    (∀ (es : List (String × Bool)) (p : String) (e : Bool),
        lookupEntry es p = some e → ensureBaselineDirectory es p = .ok es) ∧
    (∀ (es : List (String × Bool)) (p : String),
        lookupEntry es p = none →
        ensureBaselineDirectory es p = .ok ((p, true) :: es)) ∧
    (∀ (es es' : List (String × Bool)) (p : String),
        ensureBaselineDirectory es p = .ok es' →
        ensureBaselineDirectory es' p = .ok es') := by
  refine ⟨?_, ?_, ?_⟩
  · intro es p e h
    unfold ensureBaselineDirectory
    rw [h]
  · intro es p h
    unfold ensureBaselineDirectory
    rw [h]
  · intro es es' p h
    unfold ensureBaselineDirectory at h ⊢
    rcases hl : lookupEntry es p with - | e
    · rw [hl] at h
      injection h with h
      subst h
      simp [lookupEntry]
    · rw [hl] at h
      injection h with h
      subst h
      rw [hl]

/-- Witness for the amended C8 at a concrete input. -/
theorem C8_witness :
    ensureBaselineDirectory [("x", true)] "x" = .ok [("x", true)] :=
  C8_ensure_directory.1 [("x", true)] "x" true rfl

/-! ## Claim C6: meta-tags comparison is content-only -/

theorem lookup_none_of_keys_ne {β : Type} (ds : List (String × β)) (k : String)
    (h : ∀ e ∈ ds, e.1 ≠ k) : ds.lookup k = none := by
  induction ds with
  | nil => rfl
  | cons e es ih =>
      obtain ⟨k', b⟩ := e
      have hk' : k' ≠ k := h (k', b) (List.mem_cons_self _ _)
      simp only [List.lookup, beq_eq_false_iff_ne.mpr (Ne.symm hk')]
      exact ih (fun e he => h e (List.mem_cons_of_mem _ he))

/-- Every key recorded in the `differences` bucket by the baseline scan is
one of the scanned keys. -/
theorem metaScan_keys (mt bt : JsonValue) :
    ∀ (ks : List String) (ds : List (String × Option JsonValue × Option JsonValue))
      (ms : List String),
      metaScanBaseline mt bt ks = .ok (ds, ms) → ∀ e ∈ ds, e.1 ∈ ks := by
  intro ks
  induction ks with
  | nil =>
      intro ds ms hscan e he
      simp only [metaScanBaseline] at hscan
      injection hscan with hscan
      injection hscan with h1 h2
      subst h1
      simp at he
  | cons k0 ks ih =>
      intro ds ms hscan e he
      simp only [metaScanBaseline, bind, Except.bind] at hscan
      repeat' split at hscan
      all_goals (try exact (Except.noConfusion hscan))
      all_goals
        (injection hscan with hscan
         injection hscan with h1 h2
         subst h1
         first
           | (rcases List.mem_cons.mp he with rfl | he2
              · exact List.mem_cons_self _ _
              · exact List.mem_cons_of_mem _ (ih _ _ (by assumption) e he2))
           | (exact List.mem_cons_of_mem _ (ih _ _ (by assumption) e he)))

/-- What the baseline scan records for a key present and truthy on both
sides (with a non-null baseline tag): an entry carrying the two `content`
fields appears in `differences` exactly when they are strictly unequal. -/
theorem metaScan_lookup (mt bt : JsonValue) :
    ∀ (ks : List String) (ds : List (String × Option JsonValue × Option JsonValue))
      (ms : List String),
      metaScanBaseline mt bt ks = .ok (ds, ms) →
      ∀ (k : String), k ∈ ks → ks.Nodup →
      ∀ (tb : JsonValue), jsGetTot bt k = some tb → tb ≠ .null →
      ∀ (tc : JsonValue), jsGetTot mt k = some tc → tc.jsTruthy = true →
      ds.lookup k = if optStrictEq (jsGetTot tb "content") (jsGetTot tc "content")
        then none else some (jsGetTot tb "content", jsGetTot tc "content") := by
  intro ks
  induction ks with
  | nil =>
      intro ds ms hscan k hk
      simp at hk
  | cons k0 ks ih =>
      intro ds ms hscan k hk hnodup tb htb htbn tc htc htcT
      by_cases hk0 : k0 = k
      · subst hk0
        clear ih
        have hk0ks : k0 ∉ ks := (List.nodup_cons.mp hnodup).1
        have hmtn : mt ≠ .null := by
          intro h
          rw [h] at htc
          simp [jsGetTot] at htc
        have htcn : tc ≠ .null := by
          intro h
          rw [h] at htcT
          simp [JsonValue.jsTruthy] at htcT
        simp only [metaScanBaseline, bind, Except.bind, jsMemberE_ne_null hmtn, htc,
          truthyU, htcT, htb, jsMemberEU, jsMemberE_ne_null htbn, jsMemberE_ne_null htcn] at hscan
        repeat' split at hscan
        all_goals (try exact (Except.noConfusion hscan))
        all_goals
          (injection hscan with hscan
           injection hscan with h1 h2
           subst h1
           first
             | (simp_all [List.lookup]; done)
             | (rw [if_pos (by simp_all)]
                refine lookup_none_of_keys_ne _ _ ?_
                intro e he
                have hmem := metaScan_keys mt bt ks _ _ (by assumption) e he
                intro hek
                apply hk0ks
                first
                  | exact hek ▸ hmem
                  | exact hek.symm ▸ hmem
                  | (rw [hek] at hmem; exact hmem)
                  | (rw [← hek] at hmem; exact hmem)))
      · have hkks : k ∈ ks := by
          rcases List.mem_cons.mp hk with h | h
          · exact absurd h.symm hk0
          · exact h
        have hnd : ks.Nodup := (List.nodup_cons.mp hnodup).2
        have hne : (k == k0) = false := beq_eq_false_iff_ne.mpr (fun h => hk0 h.symm)
        simp only [metaScanBaseline, bind, Except.bind] at hscan
        repeat' split at hscan
        all_goals (try exact (Except.noConfusion hscan))
        all_goals
          (injection hscan with hscan
           injection hscan with h1 h2
           subst h1
           first
             | (simp only [List.lookup, hne]
                exact ih _ _ (by assumption) k hkks hnd tb htb htbn tc htc htcT)
             | (exact ih _ _ (by assumption) k hkks hnd tb htb htbn tc htc htcT))

/-- The baseline scan depends on the current tag map only through each key's
truthiness and `content` field. -/
theorem metaScan_congr (bt : JsonValue) (fs fs' : List (String × JsonValue))
    (htruthy : ∀ k, truthyU (lookupField fs k) = truthyU (lookupField fs' k))
    (hcontent : ∀ (k : String) (tc tc' : JsonValue),
        lookupField fs k = some tc → lookupField fs' k = some tc' →
        tc.jsTruthy = true → jsGetTot tc "content" = jsGetTot tc' "content") :
    ∀ ks, metaScanBaseline (.obj fs) bt ks = metaScanBaseline (.obj fs') bt ks := by
  intro ks
  induction ks with
  | nil => rfl
  | cons k0 ks ih =>
      have h1 : jsMemberE (.obj fs) k0 = .ok (jsGetTot (.obj fs) k0) :=
        jsMemberE_ne_null (by simp) k0
      have h2 : jsMemberE (.obj fs') k0 = .ok (jsGetTot (.obj fs') k0) :=
        jsMemberE_ne_null (by simp) k0
      simp only [metaScanBaseline, bind, Except.bind, h1, h2, jsGetTot]
      by_cases hTT : truthyU (lookupField fs k0) = false
      · rw [if_pos hTT, if_pos ((htruthy k0) ▸ hTT), ih]
      · have hTt : truthyU (lookupField fs k0) = true := by
          cases hx : truthyU (lookupField fs k0)
          · exact absurd hx hTT
          · rfl
        have hTt' : truthyU (lookupField fs' k0) = true := (htruthy k0) ▸ hTt
        rw [if_neg hTT, if_neg (by rw [← htruthy k0]; exact hTT)]
        cases hlf : lookupField fs k0 with
        | none => rw [hlf] at hTt; exact absurd hTt (by simp [truthyU])
        | some tc =>
            cases hlf' : lookupField fs' k0 with
            | none => rw [hlf'] at hTt'; exact absurd hTt' (by simp [truthyU])
            | some tc' =>
                have htcT : tc.jsTruthy = true := by
                  rw [hlf] at hTt
                  simpa [truthyU] using hTt
                have htcT' : tc'.jsTruthy = true := by
                  rw [hlf'] at hTt'
                  simpa [truthyU] using hTt'
                have htcn : tc ≠ .null := by
                  intro h
                  rw [h] at htcT
                  simp [JsonValue.jsTruthy] at htcT
                have htcn' : tc' ≠ .null := by
                  intro h
                  rw [h] at htcT'
                  simp [JsonValue.jsTruthy] at htcT'
                have hcts := hcontent k0 tc tc' hlf hlf' htcT
                simp only [jsMemberEU, jsMemberE_ne_null htcn, jsMemberE_ne_null htcn',
                  hcts, ih]

/-- `compareMetaTagsWithBaseline` depends on the current tag map only through
its key list and each key's truthiness and `content` field. -/
theorem compareMetaTags_congr (bt : JsonValue) (fs fs' : List (String × JsonValue))
    (hkeys : fs.map Prod.fst = fs'.map Prod.fst)
    (htruthy : ∀ k, truthyU (lookupField fs k) = truthyU (lookupField fs' k))
    (hcontent : ∀ (k : String) (tc tc' : JsonValue),
        lookupField fs k = some tc → lookupField fs' k = some tc' →
        tc.jsTruthy = true → jsGetTot tc "content" = jsGetTot tc' "content") :
    compareMetaTagsWithBaseline (.obj fs) bt = compareMetaTagsWithBaseline (.obj fs') bt := by
  have hjk : jsObjectKeysE (JsonValue.obj fs) = jsObjectKeysE (.obj fs') := by
    rw [jsObjectKeysE_ne_null (by simp), jsObjectKeysE_ne_null (by simp)]
    simp [jsKeys, hkeys]
  unfold compareMetaTagsWithBaseline
  simp only [metaScan_congr bt fs fs' htruthy hcontent, hjk]

/-- **C6**: for the meta-tags kind with an existing baseline, the comparison
of keys present on both sides depends only on their `content` fields: (a) a
`differences[key]` entry — holding the baseline and the current content —
is produced exactly when the two (string) content fields are unequal, and
(b) replacing the current tag map by one with the same keys, the same
per-key truthiness and the same per-key `content` fields (in particular,
changing any non-content attribute of a tag present on both sides) leaves
the entire comparison result unchanged. -/
theorem C6_content_only_comparison :
    (∀ (mt bt : JsonValue) (r : MetaResult) (k : String) (tb tc : JsonValue)
        (sb sc : String),
        compareMetaTagsWithBaseline mt bt = .ok r →
        (jsKeys bt).Nodup → k ∈ jsKeys bt →
        jsGetTot bt k = some tb → tb ≠ .null →
        jsGetTot tb "content" = some (.str sb) →
        jsGetTot mt k = some tc → tc.jsTruthy = true →
        jsGetTot tc "content" = some (.str sc) →
        (r.differences.lookup k = some (some (.str sb), some (.str sc)) ↔ sb ≠ sc)) ∧
    (∀ (bt : JsonValue) (fs fs' : List (String × JsonValue)),
        fs.map Prod.fst = fs'.map Prod.fst →
        (∀ k, truthyU (lookupField fs k) = truthyU (lookupField fs' k)) →
        (∀ (k : String) (tc tc' : JsonValue),
            lookupField fs k = some tc → lookupField fs' k = some tc' →
            tc.jsTruthy = true → jsGetTot tc "content" = jsGetTot tc' "content") →
        compareMetaTagsWithBaseline (.obj fs) bt
          = compareMetaTagsWithBaseline (.obj fs') bt) := by
  constructor
  · intro mt bt r k tb tc sb sc h hnodup hk htb htbn hsb htc htcT hsc
    have hbtn : bt ≠ .null := by
      intro hbt
      rw [hbt] at h
      simp [compareMetaTagsWithBaseline, jsObjectKeysE, bind, Except.bind] at h
    rw [compareMetaTagsWithBaseline] at h
    rw [jsObjectKeysE_ne_null hbtn] at h
    simp only [bind, Except.bind] at h
    repeat' split at h
    all_goals (try exact (Except.noConfusion h))
    injection h with h
    subst h
    have hlook := metaScan_lookup mt bt (jsKeys bt) _ _ (by assumption)
      k hk hnodup tb htb htbn tc htc htcT
    rw [hsb, hsc] at hlook
    dsimp only
    rw [hlook]
    by_cases heq : sb = sc
    · subst heq
      simp [optStrictEq, jsStrictEq]
    · simp [optStrictEq, jsStrictEq, heq]
  · intro bt fs fs' hkeys htruthy hcontent
    exact compareMetaTags_congr bt fs fs' hkeys htruthy hcontent

/-- Witness for C6 at a concrete input: baseline content `"A"`, current
content `"B"`, current tag carrying an extra non-content attribute. -/
theorem C6_witness :
    ((MetaResult.mk false [("title", some (.str "A"), some (.str "B"))] [] []).differences.lookup
        "title" = some (some (.str "A"), some (.str "B")) ↔ "A" ≠ "B") :=
  C6_content_only_comparison.1
    (.obj [("title", .obj [("content", .str "B"), ("x", .num 1)])])
    (.obj [("title", .obj [("content", .str "A")])])
    ⟨false, [("title", some (.str "A"), some (.str "B"))], [], []⟩
    "title" (.obj [("content", .str "A")]) (.obj [("content", .str "B"), ("x", .num 1)])
    "A" "B" rfl (by decide) (by decide) rfl nofun rfl rfl rfl rfl
